import Mathlib

/-!
Verification of the mcp-lazy-orchestrator repository.

Shallow embedding of the Python sources:
* `src/src/orchestrator/proxy.py` (`ToolProxy`)
* `src/src/orchestrator/connection_pool.py` (`MCPConnectionPool`)
* `src/src/mcp_orchestrator/registry.py` (`ServerRegistry.refresh`)
* `src/src/mcp_orchestrator/monitor.py` (`UsageMonitor`)
* `src/src/mcp_orchestrator/router.py` / `analyzer.py` (keyword matching, task analysis)
* `src/src/mcp_orchestrator/server.py` (`activate_servers`, `deactivate_servers`, `sync_state`)

Python `dict`s are modelled as functions `String → Option α` (updates are
pointwise overwrites, exactly the dict semantics used by the code);
Python `set`s are modelled as duplicate-free `List String` up to membership;
timestamps are integers; similarity scores are rationals.
-/

namespace MCPOrch

/-- Pointwise update of a string-keyed partial map, the semantics of
`d[k] = v` (with `v = some _`) and `d.pop(k, None)` (with `v = none`). -/
def setKey {α : Type} (m : String → Option α) (k : String) (v : Option α) :
    String → Option α :=
  fun t => if t = k then v else m t

theorem setKey_same {α : Type} (m : String → Option α) (k : String) (v : Option α) :
    setKey m k v k = v := by
  simp [setKey]

theorem setKey_other {α : Type} (m : String → Option α) (k t : String) (v : Option α)
    (h : t ≠ k) : setKey m k v t = m t := by
  simp [setKey, h]

/-! ## ToolProxy (`src/src/orchestrator/proxy.py`)

A `Tool` record; the proxy only ever reads its `name` attribute. -/

structure Tool where
  name : String
deriving DecidableEq, Repr

/-- State of `ToolProxy`: `_tool_to_server` and `_server_tools`. -/
structure ToolProxy where
  toolToServer : String → Option String
  serverTools : String → Option (List Tool)

/-- A fresh `ToolProxy()` with both dicts empty. -/
def proxyInit : ToolProxy := ⟨fun _ => none, fun _ => none⟩

/-- `ToolProxy.register_tools`: store the tool list for the server and point
every tool name at the server. -/
def registerTools (p : ToolProxy) (server : String) (tools : List Tool) : ToolProxy :=
  { serverTools := setKey p.serverTools server (some tools)
    toolToServer := tools.foldl (fun m tool => setKey m tool.name (some server)) p.toolToServer }

/-- `ToolProxy.unregister_server`: if the server is registered, pop every one
of its tools' names from the index and drop its tool list.  (The call to
`self._pool.invalidate_server_cache` touches the connection pool, which is
modelled separately.) -/
def unregisterServer (p : ToolProxy) (server : String) : ToolProxy :=
  match p.serverTools server with
  | none => p
  | some tools =>
    { toolToServer := tools.foldl (fun m tool => setKey m tool.name none) p.toolToServer
      serverTools := setKey p.serverTools server none }

/-- `ToolProxy.get_server_for_tool`. -/
def getServerForTool (p : ToolProxy) (toolName : String) : Option String :=
  p.toolToServer toolName

/-- One proxy API call. -/
inductive ProxyOp where
  | reg (server : String) (tools : List Tool)
  | unreg (server : String)

/-- Apply one call to the proxy state. -/
def applyOp (p : ToolProxy) : ProxyOp → ToolProxy
  | .reg s tools => registerTools p s tools
  | .unreg s => unregisterServer p s

/-- Run a sequence of proxy API calls. -/
def runOps (p : ToolProxy) : List ProxyOp → ToolProxy
  | [] => p
  | op :: ops => runOps (applyOp p op) ops

/-- A registration is fresh when the server is not currently registered and
none of its tool names is currently in the index. -/
def freshOp (p : ToolProxy) : ProxyOp → Bool
  | .reg s tools =>
      (p.serverTools s).isNone && tools.all (fun tool => (p.toolToServer tool.name).isNone)
  | .unreg _ => true

/-- A call sequence is collision-free when every registration in it is fresh
at the state where it executes. -/
def goodOps (p : ToolProxy) : List ProxyOp → Bool
  | [] => true
  | op :: ops => freshOp p op && goodOps (applyOp p op) ops

/-- The tool-to-server index invariant: a tool name maps to a server iff that
server is registered and its registered tool list contains the name. -/
def IndexInv (p : ToolProxy) : Prop :=
  ∀ t s, p.toolToServer t = some s ↔
    ∃ tools, p.serverTools s = some tools ∧ t ∈ tools.map Tool.name

theorem foldl_setKey_const {v : Option String} (tools : List Tool)
    (m : String → Option String) (t : String) :
    (tools.foldl (fun m tool => setKey m tool.name v) m) t
      = if t ∈ tools.map Tool.name then v else m t := by
  induction tools generalizing m with
  | nil => simp
  | cons a l ih =>
    simp only [List.foldl, List.map, List.mem_cons, ih]
    by_cases h : t ∈ l.map Tool.name
    · simp [h]
    · by_cases h2 : t = a.name <;> simp [h, h2, setKey]

theorem indexInv_init : IndexInv proxyInit := by
  intro t s
  constructor
  · intro h; exact absurd h (by simp [proxyInit])
  · rintro ⟨tools, h, _⟩; exact absurd h (by simp [proxyInit])

theorem indexInv_register {p : ToolProxy} {s : String} {tools : List Tool}
    (hinv : IndexInv p) (hs : p.serverTools s = none)
    (hfresh : ∀ tool ∈ tools, p.toolToServer tool.name = none) :
    IndexInv (registerTools p s tools) := by
  intro t s'
  constructor
  · intro h
    rw [show (registerTools p s tools).toolToServer t
          = if t ∈ tools.map Tool.name then some s else p.toolToServer t from
        foldl_setKey_const tools p.toolToServer t] at h
    by_cases hmem : t ∈ tools.map Tool.name
    · simp only [hmem, if_pos] at h
      obtain rfl : s = s' := by exact Option.some.inj h
      exact ⟨tools, by simp [registerTools, setKey_same], hmem⟩
    · simp only [hmem, if_neg, not_false_iff] at h
      obtain ⟨ts, hts, htm⟩ := (hinv t s').mp h
      have hne : s' ≠ s := by
        rintro rfl; rw [hs] at hts; exact Option.noConfusion hts
      exact ⟨ts, by rw [registerTools]; exact (setKey_other _ _ _ _ hne).trans hts, htm⟩
  · rintro ⟨ts, hts, htm⟩
    rw [show (registerTools p s tools).toolToServer t
          = if t ∈ tools.map Tool.name then some s else p.toolToServer t from
        foldl_setKey_const tools p.toolToServer t]
    by_cases heq : s' = s
    · subst heq
      have : ts = tools := by
        simp only [registerTools] at hts; rw [setKey_same] at hts
        exact (Option.some.inj hts).symm
      subst this
      simp [htm]
    · have hts' : p.serverTools s' = some ts := by
        simp only [registerTools] at hts; rwa [setKey_other _ _ _ _ heq] at hts
      have hold : p.toolToServer t = some s' := (hinv t s').mpr ⟨ts, hts', htm⟩
      have hnm : t ∉ tools.map Tool.name := by
        intro hmem
        obtain ⟨tool, htool, rfl⟩ := List.mem_map.mp hmem
        rw [hfresh tool htool] at hold
        exact Option.noConfusion hold
      simp [hnm, hold]

theorem indexInv_unregister {p : ToolProxy} {s : String}
    (hinv : IndexInv p) : IndexInv (unregisterServer p s) := by
  intro t s'
  rw [unregisterServer]
  cases hst : p.serverTools s with
  | none => simpa using hinv t s'
  | some tools =>
    simp only []
    constructor
    · intro h
      rw [show (tools.foldl (fun m tool => setKey m tool.name none) p.toolToServer) t
            = if t ∈ tools.map Tool.name then none else p.toolToServer t from
          foldl_setKey_const tools p.toolToServer t] at h
      by_cases hmem : t ∈ tools.map Tool.name
      · simp [hmem] at h
      · simp only [hmem, if_neg, not_false_iff] at h
        obtain ⟨ts, hts, htm⟩ := (hinv t s').mp h
        have hne : s' ≠ s := by
          rintro rfl
          rw [hst] at hts
          obtain rfl : tools = ts := Option.some.inj hts
          exact hmem htm
        exact ⟨ts, (setKey_other _ _ _ _ hne).trans hts, htm⟩
    · rintro ⟨ts, hts, htm⟩
      have hne : s' ≠ s := by
        rintro rfl; rw [setKey_same] at hts; exact Option.noConfusion hts
      rw [setKey_other _ _ _ _ hne] at hts
      have hold : p.toolToServer t = some s' := (hinv t s').mpr ⟨ts, hts, htm⟩
      rw [show (tools.foldl (fun m tool => setKey m tool.name none) p.toolToServer) t
            = if t ∈ tools.map Tool.name then none else p.toolToServer t from
          foldl_setKey_const tools p.toolToServer t]
      have hnm : t ∉ tools.map Tool.name := by
        intro hmem
        have : p.toolToServer t = some s := (hinv t s).mpr ⟨tools, hst, hmem⟩
        rw [hold] at this
        exact hne (Option.some.inj this)
      simp [hnm, hold]

theorem indexInv_runOps : ∀ (ops : List ProxyOp) (p : ToolProxy),
    IndexInv p → goodOps p ops = true → IndexInv (runOps p ops)
  | [], _, hinv, _ => hinv
  | op :: ops, p, hinv, hgood => by
    rw [goodOps, Bool.and_eq_true] at hgood
    refine indexInv_runOps ops (applyOp p op) ?_ hgood.2
    cases op with
    | reg s tools =>
      rw [freshOp, Bool.and_eq_true] at hgood
      have hs : p.serverTools s = none := Option.isNone_iff_eq_none.mp hgood.1.1
      have hfresh : ∀ tool ∈ tools, p.toolToServer tool.name = none := by
        intro tool htool
        exact Option.isNone_iff_eq_none.mp (List.all_eq_true.mp hgood.1.2 tool htool)
      exact indexInv_register hinv hs hfresh
    | unreg s => exact indexInv_unregister hinv

theorem unregister_exact {p : ToolProxy} (hinv : IndexInv p) (s t : String) :
    (unregisterServer p s).toolToServer t
      = if p.toolToServer t = some s then none else p.toolToServer t := by
  rw [unregisterServer]
  cases hst : p.serverTools s with
  | none =>
    have : p.toolToServer t ≠ some s := by
      intro h
      obtain ⟨ts, hts, _⟩ := (hinv t s).mp h
      rw [hst] at hts; exact Option.noConfusion hts
    simp [this]
  | some tools =>
    simp only []
    rw [show (tools.foldl (fun m tool => setKey m tool.name none) p.toolToServer) t
          = if t ∈ tools.map Tool.name then none else p.toolToServer t from
        foldl_setKey_const tools p.toolToServer t]
    by_cases hmem : t ∈ tools.map Tool.name
    · have : p.toolToServer t = some s := (hinv t s).mpr ⟨tools, hst, hmem⟩
      simp [hmem, this]
    · have : p.toolToServer t ≠ some s := by
        intro h
        obtain ⟨ts, hts, htm⟩ := (hinv t s).mp h
        rw [hst] at hts
        obtain rfl : tools = ts := Option.some.inj hts
        exact hmem htm
      simp [hmem, this]

/-- C1 (counterexample): two servers registering a tool of the same name break
the index invariant.  After `register_tools("s1",[t]); register_tools("s2",[t])`
the name `t` is owned by `s1`'s registered list while the index maps it to
`s2`, so the index is not the union of the registered servers' tools. -/
theorem claim1_counterexample :
    (registerTools (registerTools proxyInit "s1" [⟨"t"⟩]) "s2" [⟨"t"⟩]).serverTools "s1"
        = some [⟨"t"⟩] ∧
    (registerTools (registerTools proxyInit "s1" [⟨"t"⟩]) "s2" [⟨"t"⟩]).toolToServer "t"
        = some "s2" ∧
    (registerTools (registerTools proxyInit "s1" [⟨"t"⟩]) "s2" [⟨"t"⟩]).toolToServer "t"
        ≠ some "s1" := by
  refine ⟨rfl, rfl, ?_⟩
  intro h
  exact absurd (Option.some.inj h) (by decide)

/-- C1 (amended): for every sequence of `register_tools`/`unregister_server`
calls in which each registration registers a currently-unregistered server
whose tool names are absent from the index, the index contains exactly the
union of the registered servers' tools (a name maps to a server iff that
server is registered and lists the name), and `unregister_server(s)` removes
exactly the mappings owned by `s`, leaving every other mapping intact. -/
theorem claim1_index_exact_union (ops : List ProxyOp)
    (h : goodOps proxyInit ops = true) :
    IndexInv (runOps proxyInit ops) ∧
    ∀ s t, (unregisterServer (runOps proxyInit ops) s).toolToServer t
      = if (runOps proxyInit ops).toolToServer t = some s then none
        else (runOps proxyInit ops).toolToServer t := by
  have hinv := indexInv_runOps ops proxyInit indexInv_init h
  exact ⟨hinv, fun s t => unregister_exact hinv s t⟩

/-- C1 witness: a concrete collision-free run. -/
theorem claim1_index_exact_union_witness :
    goodOps proxyInit [.reg "a" [⟨"x"⟩], .reg "b" [⟨"y"⟩], .unreg "a"] = true ∧
    (IndexInv (runOps proxyInit [.reg "a" [⟨"x"⟩], .reg "b" [⟨"y"⟩], .unreg "a"]) ∧
     ∀ s t, (unregisterServer
        (runOps proxyInit [.reg "a" [⟨"x"⟩], .reg "b" [⟨"y"⟩], .unreg "a"]) s).toolToServer t
      = if (runOps proxyInit [.reg "a" [⟨"x"⟩], .reg "b" [⟨"y"⟩], .unreg "a"]).toolToServer t
            = some s then none
        else (runOps proxyInit [.reg "a" [⟨"x"⟩], .reg "b" [⟨"y"⟩], .unreg "a"]).toolToServer t) :=
  ⟨by decide, claim1_index_exact_union _ (by decide)⟩

/-! ## MCPConnectionPool (`src/src/orchestrator/connection_pool.py`)

Timestamps are integers (`time.time()` values).  The Docker backend's
`get_active_servers()` call is passed in as `backend : Option (List String)`:
`some l` is a successful query returning the active-server list `l`, `none`
is the call raising (the only case where `_check_server_status` returns
`None`).  Results carry a `Bool` flag recording whether the backend was
queried. -/

structure ServerInfo where
  is_active : Bool
  last_checked : Option Int
deriving DecidableEq, Repr

structure PoolState where
  serverInfo : String → Option ServerInfo
  statusCheckTtl : Int

/-- `MCPConnectionPool._check_server_status`: membership of the server in the
backend's active list; `none` when the backend query raises. -/
def checkServerStatus (backend : Option (List String)) (server : String) : Option Bool :=
  match backend with
  | none => none
  | some l => some (l.contains server)

/-- `MCPConnectionPool.get_server_info`.  Returns the `ServerNotFoundError`-or-
info outcome, the new pool state, and whether the backend was queried.
The cached entry is trusted only when `last_checked` is truthy and younger
than `status_check_ttl`. -/
def getServerInfo (pool : PoolState) (server : String) (now : Int)
    (backend : Option (List String)) :
    Except Unit ServerInfo × PoolState × Bool :=
  let cached : Option ServerInfo :=
    match pool.serverInfo server with
    | some info =>
      match info.last_checked with
      | some t => if t ≠ 0 ∧ now - t < pool.statusCheckTtl then some info else none
      | none => none
    | none => none
  match cached with
  | some info => (.ok info, pool, false)
  | none =>
    match checkServerStatus backend server with
    | none =>
      (.error (), { pool with serverInfo := setKey pool.serverInfo server none }, true)
    | some isActive =>
      let info : ServerInfo := ⟨isActive, some now⟩
      (.ok info, { pool with serverInfo := setKey pool.serverInfo server (some info) }, true)

/-- `MCPConnectionPool.is_server_active`: a pure cache read, documented
"(from cache, may be stale)"; no TTL check, no backend access. -/
def isServerActive (pool : PoolState) (server : String) : Bool :=
  match pool.serverInfo server with
  | none => false
  | some info => info.is_active

/-- `MCPConnectionPool.ensure_server_active`: status via `get_server_info`. -/
def ensureServerActive (pool : PoolState) (server : String) (now : Int)
    (backend : Option (List String)) : Except Unit Bool × PoolState × Bool :=
  match getServerInfo pool server now backend with
  | (.ok info, st, q) => (.ok info.is_active, st, q)
  | (.error e, st, q) => (.error e, st, q)

/-- The empty pool with the default 30-second status TTL. -/
def poolEmpty : PoolState := ⟨fun _ => none, 30⟩

/-- C3 (counterexample): a server absent from both the status cache and the
backend's active-servers inventory is NOT signalled as `ServerNotFoundError`;
`get_server_info` returns a normal entry reporting it inactive. -/
theorem claim3_counterexample :
    (getServerInfo poolEmpty "ghost" 100 (some [])).1 = .ok ⟨false, some 100⟩ ∧
    (getServerInfo poolEmpty "ghost" 100 (some [])).1 ≠ .error () ∧
    (ensureServerActive poolEmpty "ghost" 100 (some [])).1 = .ok false := by
  refine ⟨rfl, ?_, rfl⟩
  intro h
  exact Except.noConfusion h

/-- C3 (amended): on a cache miss, `get_server_info` raises
`ServerNotFoundError` exactly when the backend active-servers query itself
fails; when the query succeeds, a server absent from the inventory is
reported as a normal inactive entry (and `ensure_server_active` returns
`False` for it), not as NotFound. -/
theorem claim3_notfound_only_on_backend_failure (pool : PoolState) (server : String)
    (now : Int) (l : List String) (hmiss : pool.serverInfo server = none) :
    (getServerInfo pool server now none).1 = .error () ∧
    (getServerInfo pool server now (some l)).1 = .ok ⟨l.contains server, some now⟩ ∧
    (server ∉ l → (ensureServerActive pool server now (some l)).1 = .ok false) := by
  refine ⟨?_, ?_, ?_⟩
  · simp [getServerInfo, hmiss, checkServerStatus]
  · simp [getServerInfo, hmiss, checkServerStatus]
  · intro habs
    have hc : l.contains server = false := by simpa using habs
    simp only [ensureServerActive, getServerInfo, hmiss, checkServerStatus, hc]

/-- C3 witness. -/
theorem claim3_notfound_only_on_backend_failure_witness :
    poolEmpty.serverInfo "srv" = none ∧
    ((getServerInfo poolEmpty "srv" 50 none).1 = .error () ∧
     (getServerInfo poolEmpty "srv" 50 (some ["other"])).1
        = .ok ⟨["other"].contains "srv", some 50⟩ ∧
     ("srv" ∉ ["other"] → (ensureServerActive poolEmpty "srv" 50 (some ["other"])).1
        = .ok false)) :=
  ⟨rfl, claim3_notfound_only_on_backend_failure poolEmpty "srv" 50 ["other"] rfl⟩

/-- C6 (counterexample): `is_server_active` is a status read that trusts a
cache entry far older than the TTL and performs no backend query: with an
entry checked at time 10, TTL 30, it still reports "active" at time 100,
while a backend-checked read at time 100 reports the server inactive. -/
theorem claim6_counterexample :
    isServerActive ⟨setKey (fun _ => none) "s" (some ⟨true, some 10⟩), 30⟩ "s" = true ∧
    ((100 : Int) - 10 > 30) ∧
    (getServerInfo ⟨setKey (fun _ => none) "s" (some ⟨true, some 10⟩), 30⟩ "s" 100
        (some [])).1 = .ok ⟨false, some 100⟩ := by
  exact ⟨rfl, by decide, rfl⟩

/-- C6 (amended): a status read through `get_server_info` (hence through
`ensure_server_active`) never trusts an entry older than the TTL: when the
entry's `last_checked` lies more than `status_check_ttl` before `now`, the
backend is queried and the returned status is the fresh backend answer, even
if the cached value was "active".  (`is_server_active`, by contrast, is a
cache peek with no TTL check.) -/
theorem claim6_expired_entry_requeried (pool : PoolState) (server : String)
    (now t : Int) (info : ServerInfo) (l : List String)
    (hcache : pool.serverInfo server = some info)
    (hlast : info.last_checked = some t)
    (hexp : now - t > pool.statusCheckTtl) :
    (getServerInfo pool server now (some l)).2.2 = true ∧
    (getServerInfo pool server now (some l)).1 = .ok ⟨l.contains server, some now⟩ ∧
    (getServerInfo pool server now none).2.2 = true ∧
    (getServerInfo pool server now none).1 = .error () := by
  have hnot : ¬(t ≠ 0 ∧ now - t < pool.statusCheckTtl) := by
    rintro ⟨-, hlt⟩
    exact absurd hexp (not_lt.mpr (le_of_lt hlt))
  refine ⟨?_, ?_, ?_, ?_⟩ <;>
    simp [getServerInfo, hcache, hlast, hnot, checkServerStatus]

/-- C6 witness. -/
theorem claim6_expired_entry_requeried_witness :
    (⟨setKey (fun _ => none) "s" (some ⟨true, some 10⟩), 30⟩ : PoolState).serverInfo "s"
        = some ⟨true, some 10⟩ ∧
    (ServerInfo.mk true (some 10)).last_checked = some 10 ∧
    ((100 : Int) - 10 > (⟨setKey (fun _ => none) "s" (some ⟨true, some 10⟩), 30⟩ :
        PoolState).statusCheckTtl) ∧
    ((getServerInfo ⟨setKey (fun _ => none) "s" (some ⟨true, some 10⟩), 30⟩ "s" 100
        (some ["x"])).2.2 = true ∧
     (getServerInfo ⟨setKey (fun _ => none) "s" (some ⟨true, some 10⟩), 30⟩ "s" 100
        (some ["x"])).1 = .ok ⟨["x"].contains "s", some 100⟩ ∧
     (getServerInfo ⟨setKey (fun _ => none) "s" (some ⟨true, some 10⟩), 30⟩ "s" 100
        none).2.2 = true ∧
     (getServerInfo ⟨setKey (fun _ => none) "s" (some ⟨true, some 10⟩), 30⟩ "s" 100
        none).1 = .error ()) :=
  ⟨rfl, rfl, by decide,
   claim6_expired_entry_requeried _ "s" 100 10 ⟨true, some 10⟩ ["x"] rfl rfl (by decide)⟩

/-! ## ServerRegistry (`src/src/mcp_orchestrator/registry.py`)

`ServerMetadata` (`discovery.py`) restricted to the fields `refresh`
touches; the discovery result `discover_all_servers()` is passed in as a
parameter, and the returned `Bool` records whether a discovery round trip
was performed. -/

structure ServerMeta where
  name : String
  description : Option String
  category : String
  tool_count : Nat
  status : String
deriving DecidableEq, Repr

/-- One entry of `config/servers.json`'s `servers` mapping: the optional
`category`/`description` keys used by `refresh`. -/
structure ConfigOverride where
  category : Option String
  description : Option String
deriving DecidableEq, Repr

structure RegistryState where
  servers : List (String × ServerMeta)
  lastDiscovery : Option Int
  discoveryInterval : Int
  configOverrides : String → Option ConfigOverride

/-- The `discovery_interval` default, `timedelta(minutes=5)` in seconds. -/
def defaultDiscoveryInterval : Int := 5 * 60

/-- The override application inside `ServerRegistry.refresh`. -/
def applyOverride (ov : ConfigOverride) (m : ServerMeta) : ServerMeta :=
  { m with
    category := ov.category.getD m.category
    description := match ov.description with
      | some d => some d
      | none => m.description }

/-- `ServerRegistry.refresh`: if `¬force` and the last successful discovery is
younger than `discovery_interval`, return the cached map unchanged without a
discovery round trip; otherwise discover, apply the config overrides and
stamp `last_discovery := now`. -/
def refresh (st : RegistryState) (force : Bool) (now : Int)
    (discovered : List (String × ServerMeta)) :
    List (String × ServerMeta) × RegistryState × Bool :=
  let useCache : Bool :=
    if force then false
    else match st.lastDiscovery with
      | some t => decide (now - t < st.discoveryInterval)
      | none => false
  if useCache then (st.servers, st, false)
  else
    let updated := discovered.map (fun nm =>
      match st.configOverrides nm.1 with
      | none => nm
      | some ov => (nm.1, applyOverride ov nm.2))
    (updated, { st with servers := updated, lastDiscovery := some now }, true)

/-- C4: a `refresh(force=False)` younger than the discovery interval returns
the cached server map unchanged, leaves the registry state untouched and
performs no discovery round trip. -/
theorem claim4_refresh_debounce (st : RegistryState) (now t : Int)
    (discovered : List (String × ServerMeta))
    (hlast : st.lastDiscovery = some t)
    (hyoung : now - t < st.discoveryInterval) :
    refresh st false now discovered = (st.servers, st, false) := by
  simp [refresh, hlast, hyoung]

/-- C4 witness: with the default 5-minute interval, a refresh 100 seconds
after the last one is debounced. -/
theorem claim4_refresh_debounce_witness :
    (RegistryState.mk [] (some 0) defaultDiscoveryInterval (fun _ => none)).lastDiscovery
        = some 0 ∧
    ((100 : Int) - 0
        < (RegistryState.mk [] (some 0) defaultDiscoveryInterval (fun _ => none)).discoveryInterval) ∧
    refresh (RegistryState.mk [] (some 0) defaultDiscoveryInterval (fun _ => none)) false 100
        [("a", ⟨"a", none, "other", 0, "disabled"⟩)]
      = ((RegistryState.mk [] (some 0) defaultDiscoveryInterval (fun _ => none)).servers,
         RegistryState.mk [] (some 0) defaultDiscoveryInterval (fun _ => none), false) :=
  ⟨rfl, by decide,
   claim4_refresh_debounce _ 100 0 _ rfl (by decide)⟩

/-! ## UsageMonitor (`src/src/mcp_orchestrator/monitor.py`)

`datetime.now()` timestamps are integers; `idle_timeout` (a `timedelta`,
default 10 minutes) is an integer in the same unit.  The `active_servers`
set is a list iterated in order; the claims only concern membership. -/

structure ServerUsage where
  last_used : Int
  access_count : Nat
  tool_usage : String → Nat

structure MonitorState where
  idleTimeout : Int
  usage : String → Option ServerUsage

/-- `UsageMonitor.track_activation`: create a fresh `ServerUsage` stamped
`now`, or re-stamp `last_used` of the existing record. -/
def trackActivation (st : MonitorState) (server : String) (now : Int) : MonitorState :=
  { st with
    usage := setKey st.usage server (some (
      match st.usage server with
      | none => ⟨now, 0, fun _ => 0⟩
      | some u => { u with last_used := now })) }

/-- `UsageMonitor.recommend_deactivation`: an active server is recommended
when its record is idle for strictly longer than `idle_timeout`, or when it
has no record at all. -/
def recommendDeactivation (st : MonitorState) (active : List String) (now : Int) :
    List String :=
  active.filter (fun server =>
    match st.usage server with
    | some u => decide (now - u.last_used > st.idleTimeout)
    | none => true)

/-- C8: `recommend_deactivation(active)` returns exactly the active servers
that either have no usage record or whose `last_used` lies more than
`idle_timeout` in the past; and with `idle_timeout = 0`, a server activated
once (`track_activation`) and never used afterwards is recommended at every
later instant. -/
theorem claim8_recommend_exactly_idle (st : MonitorState) (active : List String)
    (now : Int) (s : String) :
    (s ∈ recommendDeactivation st active now ↔
      s ∈ active ∧
        (st.usage s = none ∨
         ∃ u, st.usage s = some u ∧ now - u.last_used > st.idleTimeout)) ∧
    (st.idleTimeout = 0 → s ∈ active → ∀ t, t < now →
      s ∈ recommendDeactivation (trackActivation st s t) active now) := by
  constructor
  · rw [recommendDeactivation, List.mem_filter]
    cases hu : st.usage s with
    | none => simp [hu]
    | some u =>
      simp only [hu, decide_eq_true_eq]
      constructor
      · rintro ⟨ha, hidle⟩
        exact ⟨ha, Or.inr ⟨u, rfl, hidle⟩⟩
      · rintro ⟨ha, h | ⟨u', hu', hidle⟩⟩
        · exact Option.noConfusion h
        · obtain rfl : u = u' := Option.some.inj hu'
          exact ⟨ha, hidle⟩
  · intro h0 ha t ht
    rw [recommendDeactivation, List.mem_filter]
    refine ⟨ha, ?_⟩
    have hset : (trackActivation st s t).usage s = some (
        match st.usage s with
        | none => ⟨t, 0, fun _ => 0⟩
        | some u => { u with last_used := t }) := by
      rw [trackActivation]
      exact setKey_same _ _ _
    have hto : (trackActivation st s t).idleTimeout = st.idleTimeout := rfl
    rw [hset]
    cases hu : st.usage s <;>
      simp only [hu, hto, h0, decide_eq_true_eq] <;> omega

/-- C8 witness: idle timeout 0, one activation at time 0, read at time 1. -/
theorem claim8_recommend_exactly_idle_witness :
    (MonitorState.mk 0 (fun _ => none)).idleTimeout = 0 ∧
    "redis" ∈ ["redis"] ∧ ((0 : Int) < 1) ∧
    "redis" ∈ recommendDeactivation
        (trackActivation (MonitorState.mk 0 (fun _ => none)) "redis" 0) ["redis"] 1 :=
  ⟨rfl, by decide, by decide,
   (claim8_recommend_exactly_idle (MonitorState.mk 0 (fun _ => none)) ["redis"] 1 "redis").2
     rfl (by decide) 0 (by decide)⟩

/-! ## SemanticRouter and EnhancedTaskAnalyzer
(`src/src/mcp_orchestrator/router.py`, `analyzer.py`, `capabilities.py`)

`sentence-transformers` is an optional dependency; without it the router's
`match_servers` always takes the `_keyword_match` fallback, which is the
path the analysis claims are about.  Similarity scores are rationals.
Python's `list(set(...))` is modelled as order-preserving deduplication
(only membership in the result is relied on). -/

/-- Python's `str.lower()` (character-wise, over the underlying list). -/
def lowerStr (s : String) : String := String.mk (s.data.map Char.toLower)

def isPrefixChars : List Char → List Char → Bool
  | [], _ => true
  | _ :: _, [] => false
  | a :: as, b :: bs => a == b && isPrefixChars as bs

def substrAux (n : List Char) : List Char → Bool
  | [] => isPrefixChars n []
  | c :: t => isPrefixChars n (c :: t) || substrAux n t

/-- Python's substring test `needle in haystack`. -/
def inStr (needle haystack : String) : Bool := substrAux needle.data haystack.data

def splitWordsAux : List Char → List Char → List String
  | acc, [] => if acc.isEmpty then [] else [String.mk acc.reverse]
  | acc, c :: rest =>
    if c.isWhitespace then
      if acc.isEmpty then splitWordsAux [] rest
      else String.mk acc.reverse :: splitWordsAux [] rest
    else splitWordsAux (c :: acc) rest

/-- Python's `str.split()`: split on whitespace runs, dropping empties. -/
def splitWords (s : String) : List String := splitWordsAux [] s.data

def dedupGo : List String → List String → List String
  | _, [] => []
  | seen, x :: xs => if x ∈ seen then dedupGo seen xs else x :: dedupGo (x :: seen) xs

/-- Order-preserving deduplication, the model of `list(set(l))`. -/
def dedupStr (l : List String) : List String := dedupGo [] l

/-- `ServerCapabilities` (`capabilities.py`). -/
structure ServerCapabilities where
  name : String
  purpose : String
  covers_technologies : List String
  when_to_use : String
  tools_preview : List String
  related_servers : List String
  auto_activate_with : List String
deriving DecidableEq, Repr

/-- `CapabilitiesRegistry.registry`, a dict iterated in insertion order. -/
def capsGet (reg : List (String × ServerCapabilities)) (name : String) :
    Option ServerCapabilities :=
  (reg.find? (fun nm => nm.1 == name)).map Prod.snd

/-- The score accumulation of `SemanticRouter._keyword_match` for one server:
`+0.5` per technology that is a substring of the lowered task, `+0.3` when
any word of the lowered purpose is a substring of the lowered task.  Every
score the code can produce is an exact multiple of `0.1`, so scores are
carried as integer tenths (the order embedding `n ↦ n/10` is exact). -/
def keywordScoreTenths (taskLower : String) (caps : ServerCapabilities) : Nat :=
  let base := caps.covers_technologies.foldl
    (fun sc tech => if inStr (lowerStr tech) taskLower then sc + 5 else sc) 0
  if (splitWords (lowerStr caps.purpose)).any (fun w => inStr w taskLower)
  then base + 3 else base

/-- Stable insertion used to model `list.sort(key=score, reverse=True)`. -/
def insertDesc (x : String × Nat) : List (String × Nat) → List (String × Nat)
  | [] => [x]
  | y :: ys => if y.2 ≥ x.2 then y :: insertDesc x ys else x :: y :: ys

/-- Stable descending sort by score. -/
def sortDesc (l : List (String × Nat)) : List (String × Nat) :=
  l.foldl (fun acc x => insertDesc x acc) []

/-- `SemanticRouter._keyword_match` in tenths: servers with positive score,
capped at `1.0` (ten tenths), sorted descending by score, truncated to
`top_k`. -/
def keywordMatchT (reg : List (String × ServerCapabilities)) (task : String)
    (topK : Nat) : List (String × Nat) :=
  let taskLower := lowerStr task
  let ms := reg.foldl
    (fun acc nm =>
      let score := keywordScoreTenths taskLower nm.2
      if score > 0 then acc ++ [(nm.1, if score ≤ 10 then score else 10)] else acc) []
  (sortDesc ms).take topK

/-- Tenths back to the rational similarity score. -/
def scoreOfTenths (n : Nat) : ℚ := (n : ℚ) / 10

/-- `SemanticRouter.match_servers` without the optional embedding model:
always the keyword fallback, scores as rationals. -/
def matchServers (reg : List (String × ServerCapabilities)) (task : String)
    (topK : Nat) : List (String × ℚ) :=
  (keywordMatchT reg task topK).map (fun p => (p.1, scoreOfTenths p.2))

/-- `EnhancedTaskAnalyzer._keyword_analysis`: servers one of whose lowered
technologies is a substring of the lowered task. -/
def keywordAnalysis (reg : List (String × ServerCapabilities)) (task : String) :
    List String :=
  let taskLower := lowerStr task
  reg.foldl
    (fun acc nm =>
      if nm.2.covers_technologies.any (fun tech => inStr (lowerStr tech) taskLower)
      then acc ++ [nm.1] else acc) []

/-- `EnhancedTaskAnalyzer._detect_technologies`. -/
def detectTechnologies (reg : List (String × ServerCapabilities)) (task : String) :
    List String :=
  let taskLower := lowerStr task
  (dedupStr (reg.foldl (fun acc nm => acc ++ nm.2.covers_technologies) [])).filter
    (fun tech => inStr (lowerStr tech) taskLower)

/-- Step 5 of `analyze_task`: collect `recommended` (context7 for covered
technologies, then related servers).  Note the code tests the raw `tech`
(not lowered) against the lowered task here. -/
def addRecommended (reg : List (String × ServerCapabilities)) (task : String)
    (allServers : List String) : List String :=
  allServers.foldl
    (fun recs server =>
      match capsGet reg server with
      | none => recs
      | some caps =>
        let recs1 :=
          if caps.covers_technologies ≠ [] ∧ "context7" ∉ allServers ∧
             caps.covers_technologies.any (fun tech => inStr tech (lowerStr task)) ∧
             "context7" ∉ recs
          then recs ++ ["context7"] else recs
        caps.related_servers.foldl
          (fun r rel => if rel ∉ allServers ∧ rel ∉ r then r ++ [rel] else r) recs1)
    []

/-- `EnhancedTaskAnalyzer._optimize_order`: context7 occurrences first. -/
def optimizeOrder (servers : List String) : List String :=
  servers.filter (fun s => s = "context7") ++ servers.filter (fun s => s ≠ "context7")

/-- Python's binary `min`, kept away from the lattice instances so that it
unfolds by `simp`. -/
def ratMin (a b : ℚ) : ℚ := if a ≤ b then a else b

/-- `EnhancedTaskAnalyzer._calculate_confidence`. -/
def calcConfidence (required : List String) (ms : List (String × ℚ)) : ℚ :=
  if required = [] then 0
  else if ms ≠ [] then
    ratMin 1 ((ms.map Prod.snd).sum / (ms.length : ℚ))
  else 7/10

/-- `TaskAnalysis` (`analyzer.py`). -/
structure TaskAnalysis where
  required_servers : List String
  recommended_servers : List String
  activation_order : List String
  estimated_tokens : Nat
  confidence : ℚ
  detected_technologies : List String
deriving DecidableEq, Repr

/-- `EnhancedTaskAnalyzer.analyze_task`. -/
def analyzeTask (reg : List (String × ServerCapabilities)) (task : String) :
    TaskAnalysis :=
  let keywordServers := keywordAnalysis reg task
  let semanticMatches := matchServers reg task 5
  let semanticServers := (semanticMatches.map Prod.fst).filter
    (fun s => s ∉ keywordServers)
  let allServers := dedupStr (keywordServers ++ semanticServers)
  let detected := detectTechnologies reg task
  let recommended := addRecommended reg task allServers
  let required := allServers
  let allWithRec := required ++ recommended
  { required_servers := required
    recommended_servers := recommended
    activation_order := optimizeOrder allWithRec
    estimated_tokens := allWithRec.length * 1000
    confidence := calcConfidence required semanticMatches
    detected_technologies := detected }

theorem ratMin_le_left (a b : ℚ) : ratMin a b ≤ a := by
  rw [ratMin]
  split_ifs with h
  · exact le_refl a
  · exact (not_le.mp h).le

theorem le_ratMin {c a b : ℚ} (ha : c ≤ a) (hb : c ≤ b) : c ≤ ratMin a b := by
  rw [ratMin]
  split_ifs <;> assumption

theorem dedupStr_ne_nil {l : List String} (h : l ≠ []) : dedupStr l ≠ [] := by
  cases l with
  | nil => exact absurd rfl h
  | cons y ys => simp [dedupStr, dedupGo]

theorem matchServers_snd_nonneg (reg : List (String × ServerCapabilities))
    (task : String) (k : Nat) :
    ∀ q ∈ (matchServers reg task k).map Prod.snd, 0 ≤ q := by
  intro q hq
  simp only [matchServers, List.map_map] at hq
  obtain ⟨p, _, rfl⟩ := List.mem_map.mp hq
  simp only [Function.comp, scoreOfTenths]
  positivity

/-- C9: the analyzer's confidence lies in `[0,1]` and is: the average of the
semantic-pass similarity scores capped at `1.0` when that pass produced at
least one match; the flat default `0.7` when it produced none but the
required set is non-empty; `0` when the required set is empty. -/
theorem claim9_confidence_cases (reg : List (String × ServerCapabilities))
    (task : String) :
    (matchServers reg task 5 ≠ [] →
      (analyzeTask reg task).confidence
        = ratMin 1 (((matchServers reg task 5).map Prod.snd).sum
            / ((matchServers reg task 5).length : ℚ))) ∧
    (matchServers reg task 5 = [] → (analyzeTask reg task).required_servers ≠ [] →
      (analyzeTask reg task).confidence = 7/10) ∧
    ((analyzeTask reg task).required_servers = [] →
      (analyzeTask reg task).confidence = 0) ∧
    0 ≤ (analyzeTask reg task).confidence ∧ (analyzeTask reg task).confidence ≤ 1 := by
  have hconf : (analyzeTask reg task).confidence
      = calcConfidence (analyzeTask reg task).required_servers (matchServers reg task 5) :=
    rfl
  have hreq_of_ms : matchServers reg task 5 ≠ [] →
      (analyzeTask reg task).required_servers ≠ [] := by
    intro hms
    show dedupStr _ ≠ []
    apply dedupStr_ne_nil
    cases hk : keywordAnalysis reg task with
    | cons a as => simp [hk]
    | nil =>
      simp only [hk, List.nil_append]
      rw [List.filter_eq_self.mpr (by intro a _; simp)]
      intro hmap
      exact hms (List.map_eq_nil_iff.mp hmap)
  have havg_nonneg : 0 ≤ ((matchServers reg task 5).map Prod.snd).sum
      / ((matchServers reg task 5).length : ℚ) :=
    div_nonneg (List.sum_nonneg (matchServers_snd_nonneg reg task 5))
      (Nat.cast_nonneg _)
  refine ⟨?_, ?_, ?_, ?_, ?_⟩
  · intro hms
    rw [hconf, calcConfidence]
    rw [if_neg (hreq_of_ms hms), if_pos hms]
  · intro hms hreq
    rw [hconf, calcConfidence, if_neg hreq]
    simp [hms]
  · intro hreq
    rw [hconf, calcConfidence, if_pos hreq]
  · rw [hconf, calcConfidence]
    split_ifs with h1 h2
    · exact le_refl 0
    · exact le_ratMin (by norm_num) havg_nonneg
    · norm_num
  · rw [hconf, calcConfidence]
    split_ifs with h1 h2
    · norm_num
    · exact ratMin_le_left 1 _
    · norm_num

/-- Capability records used to check the spec's worked example: server `A`
covers `{database, sql}`, server `B` covers `{caching}` (and, for the
amended statement, the variant tag `{cache}`). -/
def capsA7 : ServerCapabilities := ⟨"A", "", ["database", "sql"], "", [], [], []⟩

def capsB7 : ServerCapabilities := ⟨"B", "", ["caching"], "", [], [], []⟩

def capsB7cache : ServerCapabilities := ⟨"B", "", ["cache"], "", [], [], []⟩

def taskQueryCache : String := "query the database and cache results"

/-- C9 witness: on the worked example the semantic pass matches `A`
(score `0.5`), so the first case of the theorem applies. -/
theorem claim9_confidence_cases_witness :
    matchServers [("A", capsA7), ("B", capsB7)] taskQueryCache 5 ≠ [] ∧
    (analyzeTask [("A", capsA7), ("B", capsB7)] taskQueryCache).confidence
      = ratMin 1 (((matchServers [("A", capsA7), ("B", capsB7)] taskQueryCache 5).map
            Prod.snd).sum
          / ((matchServers [("A", capsA7), ("B", capsB7)] taskQueryCache 5).length : ℚ)) :=
  ⟨by decide,
   (claim9_confidence_cases [("A", capsA7), ("B", capsB7)] taskQueryCache).1 (by decide)⟩

/-- C7 (counterexample): on the task "query the database and cache results"
with `A : {database, sql}` and `B : {caching}`, the analyzer returns
`required_servers = ["A"]`: the tag `caching` is not a substring of the task
text (which says "cache"), so `B` does not appear, contrary to the claim. -/
theorem claim7_counterexample :
    "A" ∈ (analyzeTask [("A", capsA7), ("B", capsB7)] taskQueryCache).required_servers ∧
    "B" ∉ (analyzeTask [("A", capsA7), ("B", capsB7)] taskQueryCache).required_servers := by
  decide

/-- C7 (amended): a server appears through the keyword passes only when one
of its capability tags (or purpose words) occurs as a substring of the
lower-cased task text; with `B`'s tag as `cache` — which does occur in the
task — both `A` and `B` appear in `required_servers`. -/
theorem claim7_substring_tags_required :
    (analyzeTask [("A", capsA7), ("B", capsB7)] taskQueryCache).required_servers = ["A"] ∧
    "A" ∈ (analyzeTask [("A", capsA7), ("B", capsB7cache)] taskQueryCache).required_servers ∧
    "B" ∈ (analyzeTask [("A", capsA7), ("B", capsB7cache)] taskQueryCache).required_servers := by
  decide

/-! ## Orchestrator state (`src/src/mcp_orchestrator/server.py`)

`OrchestratorState.active_servers` is a set, modelled as a list up to
membership (`setAdd` is `set.add`, `filter` is `set.discard`);
`server_tools_cache` is a dict.  The Docker MCP CLI is abstracted by the
oracles `enable : String → Bool` (`enable_server`'s success flag; its output
string feeds only logging/telemetry), `disable : String → Bool`
(`disable_server`) and `toolsOf : String → List String` (`get_server_tools`;
tool payloads are opaque).  Telemetry and the usage monitor are modelled
separately (`MonitorState` above) and do not touch this state. -/

structure OrchState where
  active_servers : List String
  server_tools_cache : String → Option (List String)

/-- The initial `OrchestratorState()`: empty set, empty cache. -/
def orchInit : OrchState := ⟨[], fun _ => none⟩

/-- `set.add`. -/
def setAdd (l : List String) (s : String) : List String :=
  if s ∈ l then l else l ++ [s]

/-- One entry of an activation result's `tools` list. -/
structure ToolsEntry where
  server : String
  tools : List String
  status : String
deriving DecidableEq, Repr

/-- `activate_servers`' result (the derived `message` string is omitted). -/
structure ActivateResult where
  activated : List String
  failed : List String
  tools : List ToolsEntry
  total_tools : Nat
  estimated_tokens : Nat
deriving DecidableEq, Repr

/-- The dependency expansion at the head of `activate_servers`: for each
server of the original batch, append its `related_servers` not already in
the work list. -/
def expandDeps (reg : List (String × ServerCapabilities)) (servers : List String)
    (autoDeps : Bool) : List String :=
  if autoDeps then
    servers.foldl
      (fun acc server =>
        match capsGet reg server with
        | none => acc
        | some caps =>
          caps.related_servers.foldl
            (fun a dep => if dep ∈ a then a else a ++ [dep]) acc)
      servers
  else servers

/-- The per-server loop of `activate_servers`: already-active servers are
reported from the cache; otherwise the backend enable decides between the
success path (add to the active set, fetch and cache tools) and the failure
path (record in `failed`). -/
def activateGo (enable : String → Bool) (toolsOf : String → List String) :
    List String → OrchState → OrchState × List String × List String × List ToolsEntry
  | [], st => (st, [], [], [])
  | server :: rest, st =>
    if server ∈ st.active_servers then
      let entry : ToolsEntry := ⟨server, (st.server_tools_cache server).getD [], "already_active"⟩
      let r := activateGo enable toolsOf rest st
      (r.1, r.2.1, r.2.2.1, entry :: r.2.2.2)
    else if enable server then
      let tools := toolsOf server
      let st1 : OrchState :=
        ⟨setAdd st.active_servers server, setKey st.server_tools_cache server (some tools)⟩
      let r := activateGo enable toolsOf rest st1
      (r.1, server :: r.2.1, r.2.2.1, (⟨server, tools, "activated"⟩ : ToolsEntry) :: r.2.2.2)
    else
      let r := activateGo enable toolsOf rest st
      (r.1, r.2.1, server :: r.2.2.1, r.2.2.2)

/-- `activate_servers`. -/
def activateServers (reg : List (String × ServerCapabilities))
    (enable : String → Bool) (toolsOf : String → List String)
    (st : OrchState) (servers : List String) (autoDeps : Bool) :
    ActivateResult × OrchState :=
  let toActivate := expandDeps reg servers autoDeps
  let r := activateGo enable toolsOf toActivate st
  let total := (r.2.2.2.map (fun e => e.tools.length)).sum
  ({ activated := r.2.1, failed := r.2.2.1, tools := r.2.2.2,
     total_tools := total, estimated_tokens := total * 150 }, r.1)

/-- `deactivate_servers`' result (the `message` string is omitted). -/
structure DeactivateResult where
  deactivated : List String
  failed : List String
  still_active : List String
deriving DecidableEq, Repr

/-- The per-server loop of `deactivate_servers`: not-active servers are
skipped; on backend success the server leaves the active set and its cache
entry is popped. -/
def deactivateGo (disable : String → Bool) :
    List String → OrchState → OrchState × List String × List String
  | [], st => (st, [], [])
  | server :: rest, st =>
    if server ∈ st.active_servers then
      if disable server then
        let st1 : OrchState :=
          ⟨st.active_servers.filter (fun x => x ≠ server),
           setKey st.server_tools_cache server none⟩
        let r := deactivateGo disable rest st1
        (r.1, server :: r.2.1, r.2.2)
      else
        let r := deactivateGo disable rest st
        (r.1, r.2.1, server :: r.2.2)
    else deactivateGo disable rest st

/-- `deactivate_servers` (`servers=None` deactivates the whole active set). -/
def deactivateServers (disable : String → Bool) (st : OrchState)
    (servers : Option (List String)) : DeactivateResult × OrchState :=
  let target := servers.getD st.active_servers
  let r := deactivateGo disable target st
  ({ deactivated := r.2.1, failed := r.2.2, still_active := r.1.active_servers }, r.1)

/-- First cache loop of `sync_state`: ensure every active server has a cache
entry, fetching tools for the missing ones. -/
def syncAddCache (toolsOf : String → List String) (active : List String)
    (cache : String → Option (List String)) : String → Option (List String) :=
  fun s => if s ∈ active then some ((cache s).getD (toolsOf s)) else cache s

/-- Second cache loop of `sync_state`: purge entries of inactive servers. -/
def syncPurgeCache (active : List String)
    (cache : String → Option (List String)) : String → Option (List String) :=
  fun s => if s ∈ active then cache s else none

/-- `sync_state`: the new active set is `enabled ∩ known` (backend inventory
intersected with the registry) and the cache is reconciled to it. -/
def syncState (toolsOf : String → List String) (st : OrchState)
    (enabled known : List String) : OrchState :=
  let newActive := enabled.filter (fun s => s ∈ known)
  ⟨newActive, syncPurgeCache newActive (syncAddCache toolsOf newActive st.server_tools_cache)⟩

/-- One mutation of the orchestrator state, with its backend oracles. -/
inductive OrchOp where
  | activate (servers : List String) (autoDeps : Bool)
      (enable : String → Bool) (toolsOf : String → List String)
  | deactivate (servers : Option (List String)) (disable : String → Bool)
  | sync (enabled known : List String) (toolsOf : String → List String)

def applyOrchOp (reg : List (String × ServerCapabilities)) (st : OrchState) :
    OrchOp → OrchState
  | .activate servers autoDeps enable toolsOf =>
    (activateServers reg enable toolsOf st servers autoDeps).2
  | .deactivate servers disable => (deactivateServers disable st servers).2
  | .sync enabled known toolsOf => syncState toolsOf st enabled known

def runOrch (reg : List (String × ServerCapabilities)) (st : OrchState) :
    List OrchOp → OrchState
  | [] => st
  | op :: ops => runOrch reg (applyOrchOp reg st op) ops

/-- C10's invariant: every cached server is active. -/
def CacheSubsetActive (st : OrchState) : Prop :=
  ∀ s, st.server_tools_cache s ≠ none → s ∈ st.active_servers

theorem mem_setAdd_self (l : List String) (s : String) : s ∈ setAdd l s := by
  rw [setAdd]
  split_ifs with h
  · exact h
  · simp

theorem mem_setAdd_of_mem {l : List String} {s : String} (x : String)
    (h : s ∈ l) : s ∈ setAdd l x := by
  rw [setAdd]
  split_ifs
  · exact h
  · exact List.mem_append_left _ h

theorem activateGo_inv (enable : String → Bool) (toolsOf : String → List String) :
    ∀ (L : List String) (st : OrchState), CacheSubsetActive st →
      CacheSubsetActive (activateGo enable toolsOf L st).1
  | [], _, hinv => hinv
  | server :: rest, st, hinv => by
    rw [activateGo]
    split_ifs with hmem hen
    · exact activateGo_inv enable toolsOf rest st hinv
    · refine activateGo_inv enable toolsOf rest _ ?_
      intro s hs
      dsimp only at hs ⊢
      by_cases hsx : s = server
      · subst hsx; exact mem_setAdd_self _ _
      · have : st.server_tools_cache s ≠ none := by
          rwa [setKey_other _ _ _ _ hsx] at hs
        exact mem_setAdd_of_mem _ (hinv s this)
    · exact activateGo_inv enable toolsOf rest st hinv

theorem deactivateGo_inv (disable : String → Bool) :
    ∀ (L : List String) (st : OrchState), CacheSubsetActive st →
      CacheSubsetActive (deactivateGo disable L st).1
  | [], _, hinv => hinv
  | server :: rest, st, hinv => by
    rw [deactivateGo]
    split_ifs with hmem hdis
    · refine deactivateGo_inv disable rest _ ?_
      intro s hs
      dsimp only at hs ⊢
      by_cases hsx : s = server
      · subst hsx
        rw [setKey_same] at hs
        exact absurd rfl hs
      · have : st.server_tools_cache s ≠ none := by
          rwa [setKey_other _ _ _ _ hsx] at hs
        exact List.mem_filter.mpr ⟨hinv s this, by simp [hsx]⟩
    · exact deactivateGo_inv disable rest st hinv
    · exact deactivateGo_inv disable rest st hinv

theorem syncState_inv (toolsOf : String → List String) (st : OrchState)
    (enabled known : List String) : CacheSubsetActive (syncState toolsOf st enabled known) := by
  intro s hs
  rw [syncState] at hs ⊢
  simp only [syncPurgeCache] at hs
  by_cases h : s ∈ enabled.filter (fun s => s ∈ known)
  · exact h
  · rw [if_neg h] at hs
    exact absurd rfl hs

/-- C10: along every sequence of `activate_servers`, `deactivate_servers` and
`sync_state` operations from the initial empty state, every key of
`server_tools_cache` belongs to `active_servers`: a failed enable caches
nothing, a successful disable removes both, and `sync_state` purges entries
of servers no longer active. -/
theorem claim10_cache_subset_active (reg : List (String × ServerCapabilities))
    (ops : List OrchOp) : CacheSubsetActive (runOrch reg orchInit ops) := by
  suffices h : ∀ (ops : List OrchOp) (st : OrchState), CacheSubsetActive st →
      CacheSubsetActive (runOrch reg st ops) by
    refine h ops orchInit ?_
    intro s hs
    exact absurd rfl hs
  intro ops
  induction ops with
  | nil => exact fun st h => h
  | cons op ops ih =>
    intro st hinv
    refine ih _ ?_
    cases op with
    | activate servers autoDeps enable toolsOf =>
      exact activateGo_inv enable toolsOf _ st hinv
    | deactivate servers disable => exact deactivateGo_inv disable _ st hinv
    | sync enabled known toolsOf => exact syncState_inv toolsOf st enabled known

/-- C2: in a batch activation of `[x, y]` from the empty state, with no
declared dependencies, where the backend enable succeeds for `x` and fails
for `y`, the result reports `activated = [x]`, `failed = [y]`, only `x`'s
tools are returned and cached, and (batch `[y, x]`) the failure of `y` does
not prevent the sibling `x` from being processed. -/
theorem claim2_partial_batch_failure (x y : String) (enable : String → Bool)
    (toolsOf : String → List String) (hxy : x ≠ y)
    (hx : enable x = true) (hy : enable y = false) :
    (activateServers [] enable toolsOf orchInit [x, y] true).1.activated = [x] ∧
    (activateServers [] enable toolsOf orchInit [x, y] true).1.failed = [y] ∧
    (activateServers [] enable toolsOf orchInit [x, y] true).1.tools
      = [⟨x, toolsOf x, "activated"⟩] ∧
    (activateServers [] enable toolsOf orchInit [x, y] true).2.active_servers = [x] ∧
    (∀ s, (activateServers [] enable toolsOf orchInit [x, y] true).2.server_tools_cache s
      = if s = x then some (toolsOf x) else none) ∧
    (activateServers [] enable toolsOf orchInit [y, x] true).1.activated = [x] ∧
    (activateServers [] enable toolsOf orchInit [y, x] true).1.failed = [y] := by
  have hyx : y ≠ x := fun h => hxy h.symm
  have hyx2 : ¬ y ∈ [x] := by simp [hyx]
  refine ⟨?_, ?_, ?_, ?_, ?_, ?_, ?_⟩ <;>
    simp [activateServers, expandDeps, capsGet, activateGo, orchInit, setAdd,
          setKey, hx, hy, hyx2, hxy, hyx]

theorem activateGo_active_mono (enable : String → Bool) (toolsOf : String → List String) :
    ∀ (L : List String) (st : OrchState) (s : String), s ∈ st.active_servers →
      s ∈ (activateGo enable toolsOf L st).1.active_servers
  | [], _, _, h => h
  | server :: rest, st, s, h => by
    rw [activateGo]
    split_ifs with hmem hen
    · exact activateGo_active_mono enable toolsOf rest st s h
    · exact activateGo_active_mono enable toolsOf rest _ s (mem_setAdd_of_mem _ h)
    · exact activateGo_active_mono enable toolsOf rest st s h

theorem activateGo_activates (enable : String → Bool) (toolsOf : String → List String) :
    ∀ (L : List String) (st : OrchState),
      (∀ u ∈ L, u ∉ st.active_servers → enable u = true) →
      ∀ s ∈ L, s ∈ (activateGo enable toolsOf L st).1.active_servers
  | [], _, _, _, hs => absurd hs (List.not_mem_nil _)
  | server :: rest, st, hen, s, hs => by
    rw [activateGo]
    by_cases hmem : server ∈ st.active_servers
    · rw [if_pos hmem]
      rcases List.mem_cons.mp hs with rfl | hs'
      · exact activateGo_active_mono enable toolsOf rest st s hmem
      · exact activateGo_activates enable toolsOf rest st
          (fun u hu => hen u (List.mem_cons_of_mem _ hu)) s hs'
    · rw [if_neg hmem, if_pos (hen server (List.mem_cons_self _ _) hmem)]
      rcases List.mem_cons.mp hs with rfl | hs'
      · exact activateGo_active_mono enable toolsOf rest _ s (mem_setAdd_self _ _)
      · refine activateGo_activates enable toolsOf rest _ ?_ s hs'
        intro u hu hu2
        refine hen u (List.mem_cons_of_mem _ hu) ?_
        intro hu3
        exact hu2 (mem_setAdd_of_mem _ hu3)

theorem activateGo_all_already (enable : String → Bool) (toolsOf : String → List String) :
    ∀ (L : List String) (st : OrchState), (∀ s ∈ L, s ∈ st.active_servers) →
      activateGo enable toolsOf L st
        = (st, [], [],
           L.map (fun s => ⟨s, (st.server_tools_cache s).getD [], "already_active"⟩))
  | [], st, _ => rfl
  | server :: rest, st, h => by
    rw [activateGo, if_pos (h server (List.mem_cons_self _ _))]
    rw [activateGo_all_already enable toolsOf rest st
      (fun s hs => h s (List.mem_cons_of_mem _ hs))]
    rfl

theorem mem_expandDeps (reg : List (String × ServerCapabilities))
    (servers : List String) (autoDeps : Bool) :
    ∀ s ∈ servers, s ∈ expandDeps reg servers autoDeps := by
  have hinner : ∀ (l : List String) (acc : List String) (x : String), x ∈ acc →
      x ∈ l.foldl (fun a dep => if dep ∈ a then a else a ++ [dep]) acc := by
    intro l
    induction l with
    | nil => exact fun acc x h => h
    | cons d ds ih =>
      intro acc x h
      rw [List.foldl_cons]
      refine ih _ x ?_
      split_ifs
      · exact h
      · exact List.mem_append_left _ h
  have houter : ∀ (l : List String) (acc : List String) (x : String), x ∈ acc →
      x ∈ l.foldl
        (fun acc server =>
          match capsGet reg server with
          | none => acc
          | some caps =>
            caps.related_servers.foldl (fun a dep => if dep ∈ a then a else a ++ [dep]) acc)
        acc := by
    intro l
    induction l with
    | nil => exact fun acc x h => h
    | cons v vs ih =>
      intro acc x h
      rw [List.foldl_cons]
      refine ih _ x ?_
      cases capsGet reg v with
      | none => exact h
      | some caps => exact hinner _ _ _ h
  intro s hs
  rw [expandDeps]
  split_ifs
  · exact houter servers servers s hs
  · exact hs

/-- C5: when the first `activate_servers(S)` call's backend enables all
succeed, a second call with the same arguments leaves the active-server set
and the tool cache literally unchanged, activates and fails nothing, and
reports status "already_active" (with tools served from the cache) for every
server it processes — in particular for every server of `S`. -/
theorem claim5_activation_idempotent (reg : List (String × ServerCapabilities))
    (enable enable2 : String → Bool) (toolsOf toolsOf2 : String → List String)
    (servers : List String) (autoDeps : Bool) (st0 : OrchState)
    (hsucc : ∀ s ∈ expandDeps reg servers autoDeps,
      s ∉ st0.active_servers → enable s = true) :
    (activateServers reg enable2 toolsOf2
        (activateServers reg enable toolsOf st0 servers autoDeps).2 servers autoDeps).2
      = (activateServers reg enable toolsOf st0 servers autoDeps).2 ∧
    (activateServers reg enable2 toolsOf2
        (activateServers reg enable toolsOf st0 servers autoDeps).2 servers autoDeps).1.activated
      = [] ∧
    (activateServers reg enable2 toolsOf2
        (activateServers reg enable toolsOf st0 servers autoDeps).2 servers autoDeps).1.failed
      = [] ∧
    (activateServers reg enable2 toolsOf2
        (activateServers reg enable toolsOf st0 servers autoDeps).2 servers autoDeps).1.tools
      = (expandDeps reg servers autoDeps).map (fun s =>
          ⟨s, (((activateServers reg enable toolsOf st0 servers autoDeps).2).server_tools_cache
                s).getD [],
           "already_active"⟩) ∧
    ∀ s ∈ servers, ∃ e ∈ (activateServers reg enable2 toolsOf2
        (activateServers reg enable toolsOf st0 servers autoDeps).2 servers
        autoDeps).1.tools,
      e.server = s ∧ e.status = "already_active" := by
  have hst1 : (activateServers reg enable toolsOf st0 servers autoDeps).2
      = (activateGo enable toolsOf (expandDeps reg servers autoDeps) st0).1 := rfl
  have hall : ∀ s ∈ expandDeps reg servers autoDeps,
      s ∈ (activateServers reg enable toolsOf st0 servers autoDeps).2.active_servers := by
    intro s hs
    rw [hst1]
    exact activateGo_activates enable toolsOf _ st0 hsucc s hs
  have hgo := activateGo_all_already enable2 toolsOf2 (expandDeps reg servers autoDeps)
    (activateServers reg enable toolsOf st0 servers autoDeps).2 hall
  refine ⟨?_, ?_, ?_, ?_, ?_⟩
  · show (activateGo enable2 toolsOf2 (expandDeps reg servers autoDeps) _).1 = _
    rw [hgo]
  · show (activateGo enable2 toolsOf2 (expandDeps reg servers autoDeps) _).2.1 = _
    rw [hgo]
  · show (activateGo enable2 toolsOf2 (expandDeps reg servers autoDeps) _).2.2.1 = _
    rw [hgo]
  · show (activateGo enable2 toolsOf2 (expandDeps reg servers autoDeps) _).2.2.2 = _
    rw [hgo]
  · intro s hs
    refine ⟨⟨s, (((activateServers reg enable toolsOf st0 servers
        autoDeps).2).server_tools_cache s).getD [], "already_active"⟩, ?_, rfl, rfl⟩
    show _ ∈ (activateGo enable2 toolsOf2 (expandDeps reg servers autoDeps) _).2.2.2
    rw [hgo]
    exact List.mem_map_of_mem _ (mem_expandDeps reg servers autoDeps s hs)

/-- C5 witness: one server, empty capability registry, all enables succeed. -/
theorem claim5_activation_idempotent_witness :
    (∀ s ∈ expandDeps [] ["srv"] true, s ∉ orchInit.active_servers →
        (fun _ => true) s = true) ∧
    ((activateServers [] (fun _ => false) (fun _ => ["u"])
        (activateServers [] (fun _ => true) (fun _ => ["t"]) orchInit ["srv"] true).2
        ["srv"] true).2
      = (activateServers [] (fun _ => true) (fun _ => ["t"]) orchInit ["srv"] true).2 ∧
     (activateServers [] (fun _ => false) (fun _ => ["u"])
        (activateServers [] (fun _ => true) (fun _ => ["t"]) orchInit ["srv"] true).2
        ["srv"] true).1.activated = [] ∧
     (activateServers [] (fun _ => false) (fun _ => ["u"])
        (activateServers [] (fun _ => true) (fun _ => ["t"]) orchInit ["srv"] true).2
        ["srv"] true).1.failed = [] ∧
     (activateServers [] (fun _ => false) (fun _ => ["u"])
        (activateServers [] (fun _ => true) (fun _ => ["t"]) orchInit ["srv"] true).2
        ["srv"] true).1.tools
      = (expandDeps [] ["srv"] true).map (fun s =>
          ⟨s, ((((activateServers [] (fun _ => true) (fun _ => ["t"]) orchInit ["srv"]
                true).2).server_tools_cache s).getD []),
           "already_active"⟩) ∧
     ∀ s ∈ ["srv"], ∃ e ∈ (activateServers [] (fun _ => false) (fun _ => ["u"])
        (activateServers [] (fun _ => true) (fun _ => ["t"]) orchInit ["srv"] true).2
        ["srv"] true).1.tools,
       e.server = s ∧ e.status = "already_active") :=
  ⟨by decide,
   claim5_activation_idempotent [] (fun _ => true) (fun _ => false)
     (fun _ => ["t"]) (fun _ => ["u"]) ["srv"] true orchInit (by decide)⟩

/-- C2 witness: concrete batch with one succeeding and one failing server. -/
theorem claim2_partial_batch_failure_witness :
    ("x" : String) ≠ "y" ∧ (fun s => s == "x") "x" = true ∧
    (fun s => s == "x") "y" = false ∧
    ((activateServers [] (fun s => s == "x") (fun _ => ["tx"]) orchInit ["x", "y"]
        true).1.activated = ["x"] ∧
     (activateServers [] (fun s => s == "x") (fun _ => ["tx"]) orchInit ["x", "y"]
        true).1.failed = ["y"] ∧
     (activateServers [] (fun s => s == "x") (fun _ => ["tx"]) orchInit ["x", "y"]
        true).1.tools = [⟨"x", ["tx"], "activated"⟩] ∧
     (activateServers [] (fun s => s == "x") (fun _ => ["tx"]) orchInit ["x", "y"]
        true).2.active_servers = ["x"] ∧
     (∀ s, (activateServers [] (fun s => s == "x") (fun _ => ["tx"]) orchInit ["x", "y"]
        true).2.server_tools_cache s = if s = "x" then some ["tx"] else none) ∧
     (activateServers [] (fun s => s == "x") (fun _ => ["tx"]) orchInit ["y", "x"]
        true).1.activated = ["x"] ∧
     (activateServers [] (fun s => s == "x") (fun _ => ["tx"]) orchInit ["y", "x"]
        true).1.failed = ["y"]) :=
  ⟨by decide, rfl, rfl,
   claim2_partial_batch_failure "x" "y" (fun s => s == "x") (fun _ => ["tx"])
     (by decide) rfl rfl⟩

end MCPOrch
